import Mathlib

/-!
Verification of the task-queue service core against its design document.

The data model and operations below are a shallow embedding of the Rust
sources (`src/core.rs`, `src/server.rs`, `src/error.rs`):
UUIDs are modelled as `Nat`, timestamps as `Nat`, floating-point fractions
as `ℚ`, hash maps as association lists, and the fallible stateful server
operations as functions `ServerState → ... → ServerState × Except TaskQueueError α`
(the returned state reflects all mutations performed before an error, as in
the source, where `?` propagates after the in-memory map was already touched).
-/

namespace TaskQueue

/-- Task status enumeration (core.rs `TaskStatus`). -/
inductive TaskStatus where
  | Planning
  | Implementation
  | TestCreation
  | Testing
  | AIReview
  | Finalized
  | AnalysisAndDocumentation
  | InDiscussion
  | InImplementation
  | InReview
  | InTesting
  | Pending
  | Running
  | Completed
  | Failed
  | Cancelled
  | WaitingForDependencies
deriving DecidableEq, Repr

/-- Task metrics (core.rs `TaskMetrics`). -/
structure TaskMetrics where
  execution_time : Nat
  memory_usage : Nat
  cpu_usage : ℚ
  disk_usage : Nat
  network_io : Nat
deriving DecidableEq, Repr

/-- Task result enumeration (core.rs `TaskResult`). -/
inductive TaskResult where
  | Success (output : String) (artifacts : List String) (metrics : TaskMetrics)
  | Failure (error : String) (exit_code : Option Int) (logs : List String)
  | Cancelled (reason : String)
deriving DecidableEq, Repr

/-- Dependency condition types (core.rs `DependencyCondition`). -/
inductive DependencyCondition where
  | Success
  | Failure
  | Completion
  | Custom (serialized : String)
deriving DecidableEq, Repr

/-- Task priority levels (core.rs `TaskPriority`). -/
inductive TaskPriority where
  | Low
  | Normal
  | High
  | Critical
deriving DecidableEq, Repr

/-- Project status enumeration (core.rs `ProjectStatus`). -/
inductive ProjectStatus where
  | Planning
  | Active
  | OnHold
  | Completed
  | Cancelled
deriving DecidableEq, Repr

/-- Project structure (core.rs `Project`). -/
structure Project where
  id : Nat
  name : String
  description : Option String
  status : ProjectStatus
  created_at : Nat
  updated_at : Nat
  due_date : Option Nat
  tags : List String
  metadata : List (String × String)
deriving DecidableEq, Repr

/-- AI review attached to a phase (core.rs `AIReview`). -/
structure AIReview where
  model_name : String
  review_result : String
  score : ℚ
  suggestions : List String
  approved : Bool
  reviewed_at : Nat
deriving DecidableEq, Repr

/-- Task phase history entry (core.rs `TaskPhase`). -/
structure TaskPhase where
  phase : TaskStatus
  started_at : Option Nat
  completed_at : Option Nat
  documentation : Option String
  artifacts : List String
  ai_reviews : List AIReview
deriving DecidableEq, Repr

/-- Task type enumeration (core.rs `TaskType`). -/
inductive TaskType where
  | Simple
  | Dependent
  | Workflow
  | Scheduled
deriving DecidableEq, Repr

/-- Development workflow status ladder (core.rs `DevelopmentWorkflowStatus`). -/
inductive DevelopmentWorkflowStatus where
  | NotStarted
  | Planning
  | InImplementation
  | TestCreation
  | Testing
  | AIReview
  | Completed
  | Failed
deriving DecidableEq, Repr

/-- AI review type enumeration (core.rs `AIReviewType`). -/
inductive AIReviewType where
  | CodeQuality
  | Security
  | Performance
  | Documentation
  | Testing
  | Architecture
deriving DecidableEq, Repr

/-- AI development review report (core.rs `AIDevelopmentReview`). -/
structure AIDevelopmentReview where
  model_name : String
  review_type : AIReviewType
  content : String
  score : ℚ
  approved : Bool
  suggestions : List String
  reviewed_at : Nat
deriving DecidableEq, Repr

/-- Development workflow attached to a task (core.rs `DevelopmentWorkflow`). -/
structure DevelopmentWorkflow where
  technical_documentation_path : Option String
  test_coverage_percentage : Option ℚ
  ai_review_reports : List AIDevelopmentReview
  workflow_status : DevelopmentWorkflowStatus
  started_at : Option Nat
  completed_at : Option Nat
deriving DecidableEq, Repr

/-- Dependency record embedded in a task (core.rs `Dependency`). -/
structure Dependency where
  task_id : Nat
  task_name : Option String
  condition : DependencyCondition
  required : Bool
  correlation_id : Option String
  metadata : List (String × String)
deriving DecidableEq, Repr

/-- Main task structure (core.rs `Task`). -/
structure Task where
  id : Nat
  name : String
  command : String
  description : String
  technical_specs : Option String
  acceptance_criteria : List String
  project : Option String
  task_type : TaskType
  priority : TaskPriority
  project_id : Option Nat
  dependencies : List Dependency
  timeout : Option Nat
  retry_attempts : Nat
  retry_delay : Nat
  environment : List (String × String)
  working_directory : Option String
  created_at : Nat
  updated_at : Nat
  status : TaskStatus
  result : Option TaskResult
  phases : List TaskPhase
  current_phase : TaskStatus
  ai_reviews_required : Nat
  ai_reviews_completed : Nat
  development_workflow : Option DevelopmentWorkflow
  metadata : List (String × String)
deriving DecidableEq, Repr

/-- Workflow dependency edge (core.rs `WorkflowDependency`). -/
structure WorkflowDependency where
  from_task : Nat
  to_task : Nat
  condition : DependencyCondition
deriving DecidableEq, Repr

/-- Workflow status (core.rs `WorkflowStatus`). -/
inductive WorkflowStatus where
  | Pending
  | Running
  | Completed
  | Failed
  | Cancelled
deriving DecidableEq, Repr

/-- Workflow: a group of embedded tasks (core.rs `Workflow`). -/
structure Workflow where
  id : Nat
  name : String
  description : Option String
  tasks : List Task
  dependencies : List WorkflowDependency
  created_at : Nat
  updated_at : Nat
  status : WorkflowStatus
deriving DecidableEq, Repr

/-- Error taxonomy (error.rs `TaskQueueError`; payloads reduced to what the
claims observe, storage/serialization payloads dropped as opaque). -/
inductive TaskQueueError where
  | TaskNotFound (task_id : Nat)
  | WorkflowNotFound (workflow_id : Nat)
  | ProjectNotFound (project_id : Nat)
  | CircularDependency (cycle : String)
  | StorageError
  | InvalidStatusTransition (msg : String)
  | InvalidTaskDefinition (reason : String)
  | WorkflowValidationFailed (reason : String)
  | ValidationError (reason : String)
deriving DecidableEq, Repr

/-- Association-list lookup, modelling `HashMap::get`. -/
def mapLookup {α : Type} (m : List (Nat × α)) (k : Nat) : Option α :=
  match m with
  | [] => none
  | (k2, v) :: rest => if k2 = k then some v else mapLookup rest k

/-- Association-list insert-or-replace, modelling `HashMap::insert`. -/
def mapInsert {α : Type} (m : List (Nat × α)) (k : Nat) (v : α) : List (Nat × α) :=
  match m with
  | [] => [(k, v)]
  | (k2, v2) :: rest => if k2 = k then (k, v) :: rest else (k2, v2) :: mapInsert rest k v

/-- Association-list removal, modelling `HashMap::remove`. -/
def mapRemove {α : Type} (m : List (Nat × α)) (k : Nat) : List (Nat × α) :=
  match m with
  | [] => []
  | (k2, v2) :: rest => if k2 = k then mapRemove rest k else (k2, v2) :: mapRemove rest k

/-- The values of a map, modelling `HashMap::values`. -/
def mapValues {α : Type} (m : List (Nat × α)) : List α := m.map (fun p => p.2)

/-- Debug rendering of a status, modelling the `{:?}` formatter. -/
def status_name : TaskStatus → String
  | .Planning => "Planning"
  | .Implementation => "Implementation"
  | .TestCreation => "TestCreation"
  | .Testing => "Testing"
  | .AIReview => "AIReview"
  | .Finalized => "Finalized"
  | .AnalysisAndDocumentation => "AnalysisAndDocumentation"
  | .InDiscussion => "InDiscussion"
  | .InImplementation => "InImplementation"
  | .InReview => "InReview"
  | .InTesting => "InTesting"
  | .Pending => "Pending"
  | .Running => "Running"
  | .Completed => "Completed"
  | .Failed => "Failed"
  | .Cancelled => "Cancelled"
  | .WaitingForDependencies => "WaitingForDependencies"

/-- Check whether one recorded result satisfies a dependency condition:
the `match (&dependency.condition, result)` arms inside `Task::is_ready`. -/
def condition_matches : DependencyCondition → TaskResult → Bool
  | .Success, .Success _ _ _ => true
  | .Failure, .Failure _ _ _ => true
  | .Completion, _ => true
  | _, _ => false

/-- core.rs `Task::is_ready`: every dependency must have a recorded result
satisfying its condition (the loop returns `false` on the first miss). -/
def Task.is_ready (self : Task) (completed_tasks : List (Nat × TaskResult)) : Bool :=
  self.dependencies.all fun dependency =>
    match mapLookup completed_tasks dependency.task_id with
    | some result => condition_matches dependency.condition result
    | none => false

/-- core.rs `Task::can_transition_to` (match arms in source order). -/
def Task.can_transition_to (self : Task) (new_status : TaskStatus) : Bool :=
  match self.current_phase, new_status with
  | .Planning, .Implementation => true
  | .Implementation, .TestCreation => true
  | .TestCreation, .Testing => true
  | .Testing, .AIReview => true
  | .AIReview, .Finalized => decide (self.ai_reviews_completed ≥ self.ai_reviews_required)
  | .AIReview, .Implementation => true
  | .Failed, .Implementation => true
  | .Failed, .Planning => true
  | _, .Cancelled => true
  | current, new => current == new

/-- Set `completed_at` on the last phase entry, modelling
`if let Some(p) = self.phases.last_mut() { p.completed_at = Some(now) }`. -/
def close_last_phase (phases : List TaskPhase) (now : Nat) : List TaskPhase :=
  match phases with
  | [] => []
  | [p] => [{ p with completed_at := some now }]
  | p :: rest => p :: close_last_phase rest now

/-- A freshly started phase record, as pushed by `Task::set_status`. -/
def fresh_phase (s : TaskStatus) (now : Nat) : TaskPhase :=
  { phase := s, started_at := some now, completed_at := none,
    documentation := none, artifacts := [], ai_reviews := [] }

/-- core.rs `Task::set_status`: validate the transition, then do the
phase-history bookkeeping and update `current_phase`/`status`/`updated_at`. -/
def Task.set_status (self : Task) (new_status : TaskStatus) (now : Nat) :
    Except String Task :=
  if ¬ self.can_transition_to new_status then
    .error ("Invalid status transition from " ++ status_name self.current_phase
      ++ " to " ++ status_name new_status)
  else
    let self2 : Task :=
      match new_status with
      | .AIReview =>
        if self.current_phase ≠ .AIReview then
          { self with phases :=
              close_last_phase self.phases now ++ [fresh_phase .AIReview now] }
        else self
      | .Implementation =>
        if self.current_phase = .AIReview then
          { self with phases :=
              close_last_phase self.phases now ++ [fresh_phase .Implementation now] }
        else self
      | .Finalized =>
        { self with phases := close_last_phase self.phases now }
      | _ =>
        if self.current_phase ≠ new_status then
          { self with phases :=
              close_last_phase self.phases now ++ [fresh_phase new_status now] }
        else self
    .ok { self2 with current_phase := new_status, status := new_status, updated_at := now }

/-- core.rs `Task::advance_phase`: compute the next phase from
`current_phase`, then delegate to `set_status`. -/
def Task.advance_phase (self : Task) (now : Nat) : Except String Task :=
  match self.current_phase with
  | .Planning => self.set_status .Implementation now
  | .Implementation => self.set_status .TestCreation now
  | .TestCreation => self.set_status .Testing now
  | .Testing => self.set_status .AIReview now
  | .AIReview =>
    if self.ai_reviews_completed ≥ self.ai_reviews_required then
      self.set_status .Finalized now
    else
      .error ("Need " ++ toString self.ai_reviews_required ++ " AI reviews, only "
        ++ toString self.ai_reviews_completed ++ " completed")
  | .Finalized => .error "Task already finalized"
  | _ => .error "Invalid phase transition"

/-- Append a review to the last phase entry, modelling the body of
`if let Some(p) = self.phases.last_mut()` in `Task::add_ai_review`. -/
def push_review_last_phase (phases : List TaskPhase) (review : AIReview) : List TaskPhase :=
  match phases with
  | [] => []
  | [p] => [{ p with ai_reviews := p.ai_reviews ++ [review] }]
  | p :: rest => p :: push_review_last_phase rest review

/-- core.rs `Task::add_ai_review`: push the review onto the current phase and
bump `ai_reviews_completed` — but only when a phase entry exists. -/
def Task.add_ai_review (self : Task) (review : AIReview) (now : Nat) : Task :=
  let self2 : Task :=
    match self.phases with
    | [] => self
    | _ :: _ =>
      { self with phases := push_review_last_phase self.phases review,
                  ai_reviews_completed := self.ai_reviews_completed + 1 }
  { self2 with updated_at := now }

/-- server.rs `TaskQueueServer::get_effective_task_status`: the pure
effective-status reconciliation over the task's two phase ladders. -/
def get_effective_task_status (task : Task) : TaskStatus :=
  match task.development_workflow with
  | some workflow =>
    if workflow.workflow_status = .NotStarted then
      match task.current_phase with
      | .Planning => .Planning
      | .Implementation => .Implementation
      | .TestCreation => .TestCreation
      | .Testing => .Testing
      | .AIReview => .AIReview
      | .Finalized => .Finalized
      | .Completed => .Completed
      | .Failed => .Failed
      | .Cancelled => .Cancelled
      | _ => .Planning
    else
      match workflow.workflow_status with
      | .NotStarted => .Planning
      | .Planning => .Planning
      | .InImplementation => .Implementation
      | .TestCreation => .TestCreation
      | .Testing => .Testing
      | .AIReview => .AIReview
      | .Completed => .Completed
      | .Failed => .Failed
  | none => task.current_phase

/-- Server state (server.rs `TaskQueueServer`): the three in-memory entity
maps plus the persistent store's three keyspaces. `storageOk` models whether
the storage engine's operations succeed or fail. -/
structure ServerState where
  tasks : List (Nat × Task)
  workflows : List (Nat × Workflow)
  projects : List (Nat × Project)
  storageTasks : List (Nat × Task)
  storageWorkflows : List (Nat × Workflow)
  storageProjects : List (Nat × Project)
  storageOk : Bool
deriving DecidableEq, Repr

/-- storage.rs `StorageEngine::store_task` as seen by the server: persist the
task, or fail with a storage error. -/
def store_task (st : ServerState) (task : Task) :
    ServerState × Except TaskQueueError Unit :=
  if st.storageOk then
    ({ st with storageTasks := mapInsert st.storageTasks task.id task }, .ok ())
  else (st, .error .StorageError)

/-- storage.rs `StorageEngine::store_workflow` as seen by the server. -/
def store_workflow (st : ServerState) (workflow : Workflow) :
    ServerState × Except TaskQueueError Unit :=
  if st.storageOk then
    ({ st with storageWorkflows := mapInsert st.storageWorkflows workflow.id workflow }, .ok ())
  else (st, .error .StorageError)

/-- storage.rs `StorageEngine::delete_project` as seen by the server. -/
def storage_delete_project (st : ServerState) (project_id : Nat) :
    ServerState × Except TaskQueueError Unit :=
  if st.storageOk then
    ({ st with storageProjects := mapRemove st.storageProjects project_id }, .ok ())
  else (st, .error .StorageError)

/-- server.rs `TaskQueueServer::validate_task`. -/
def validate_task (st : ServerState) (task : Task) : Except TaskQueueError Unit :=
  if task.name.isEmpty then
    .error (.InvalidTaskDefinition "Task name cannot be empty")
  else if task.command.isEmpty then
    .error (.InvalidTaskDefinition "Task command cannot be empty")
  else if task.project_id.isNone then
    .error (.InvalidTaskDefinition "Task must be associated with a project")
  else
    match task.project_id with
    | some project_id =>
      if (mapLookup st.projects project_id).isNone then
        .error (.InvalidTaskDefinition "Project does not exist")
      else .ok ()
    | none => .ok ()

/-- server.rs `TaskQueueServer::submit_task`: validate, insert into the
in-memory map, then persist (the `.tasks` file append and the vectorizer call
are best-effort side effects outside this state). A persistence failure is
propagated with `?` after the map was already mutated. -/
def submit_task (st : ServerState) (task : Task) :
    ServerState × Except TaskQueueError Nat :=
  match validate_task st task with
  | .error e => (st, .error e)
  | .ok () =>
    let task_id := task.id
    let st1 := { st with tasks := mapInsert st.tasks task_id task }
    match store_task st1 task with
    | (st2, .error e) => (st2, .error e)
    | (st2, .ok ()) => (st2, .ok task_id)

/-- server.rs `TaskQueueServer::delete_project`: remove the project from the
in-memory map, clear `project_id` on every in-memory task that references it,
then delete the project from persistent storage. The modified tasks are not
persisted. -/
def delete_project (st : ServerState) (project_id : Nat) :
    ServerState × Except TaskQueueError Unit :=
  match mapLookup st.projects project_id with
  | none => (st, .error (.ProjectNotFound project_id))
  | some _ =>
    let st1 := { st with
      projects := mapRemove st.projects project_id,
      tasks := st.tasks.map fun p =>
        (p.1, if p.2.project_id = some project_id then { p.2 with project_id := none } else p.2) }
    storage_delete_project st1 project_id

/-- server.rs `TaskQueueServer::set_task_status`: look the task up, delegate to
`Task::set_status` (its `String` error converts to `InvalidStatusTransition`
via `From<String> for TaskQueueError`), then persist. -/
def set_task_status (st : ServerState) (task_id : Nat) (new_status : TaskStatus)
    (now : Nat) : ServerState × Except TaskQueueError Unit :=
  match mapLookup st.tasks task_id with
  | none => (st, .error (.TaskNotFound task_id))
  | some task =>
    match task.set_status new_status now with
    | .error msg => (st, .error (.InvalidStatusTransition msg))
    | .ok task2 =>
      let st1 := { st with tasks := mapInsert st.tasks task_id task2 }
      match store_task st1 task2 with
      | (st2, .error e) => (st2, .error e)
      | (st2, .ok ()) => (st2, .ok ())

/-- server.rs `TaskQueueServer::cancel_task`: set `status` to `Cancelled` and
record the reason in `result`, leaving the phase ladders untouched. -/
def cancel_task (st : ServerState) (task_id : Nat) (reason : String) (now : Nat) :
    ServerState × Except TaskQueueError Unit :=
  match mapLookup st.tasks task_id with
  | none => (st, .error (.TaskNotFound task_id))
  | some task =>
    let task2 := { task with
      status := TaskStatus.Cancelled,
      result := some (TaskResult.Cancelled reason),
      updated_at := now }
    let st1 := { st with tasks := mapInsert st.tasks task_id task2 }
    match store_task st1 task2 with
    | (st2, .error e) => (st2, .error e)
    | (st2, .ok ()) => (st2, .ok ())

/-- server.rs `TaskQueueServer::set_test_coverage`: store the coverage value
on the attached workflow. The source performs no range check on `coverage`. -/
def set_test_coverage (st : ServerState) (task_id : Nat) (coverage : ℚ) (now : Nat) :
    ServerState × Except TaskQueueError Unit :=
  match mapLookup st.tasks task_id with
  | none => (st, .error (.TaskNotFound task_id))
  | some task =>
    match task.development_workflow with
    | none => (st, .error (.ValidationError "Task has no development workflow initialized"))
    | some workflow =>
      let task2 := { task with
        development_workflow := some { workflow with test_coverage_percentage := some coverage },
        updated_at := now }
      let st1 := { st with tasks := mapInsert st.tasks task_id task2 }
      match store_task st1 task2 with
      | (st2, .error e) => (st2, .error e)
      | (st2, .ok ()) => (st2, .ok ())

/-- server.rs `TaskQueueServer::add_ai_review_report`: push the review onto
the workflow's report list and set `ai_reviews_completed` to that list's
length. -/
def add_ai_review_report (st : ServerState) (task_id : Nat)
    (review : AIDevelopmentReview) (now : Nat) :
    ServerState × Except TaskQueueError Unit :=
  match mapLookup st.tasks task_id with
  | none => (st, .error (.TaskNotFound task_id))
  | some task =>
    match task.development_workflow with
    | none => (st, .error (.ValidationError "Task has no development workflow initialized"))
    | some workflow =>
      let workflow2 := { workflow with ai_review_reports := workflow.ai_review_reports ++ [review] }
      let task2 := { task with
        development_workflow := some workflow2,
        ai_reviews_completed := workflow2.ai_review_reports.length,
        updated_at := now }
      let st1 := { st with tasks := mapInsert st.tasks task_id task2 }
      match store_task st1 task2 with
      | (st2, .error e) => (st2, .error e)
      | (st2, .ok ()) => (st2, .ok ())

/-- The status-string match inside server.rs `list_tasks`: which effective
statuses a (lower-case, exact) filter string selects. -/
def status_filter_matches (status : String) (effective_status : TaskStatus) : Bool :=
  match status with
  | "planning" => effective_status == .Planning
  | "pending" => effective_status == .Pending
  | "running" => effective_status == .Running
  | "completed" => effective_status == .Completed
  | "failed" => effective_status == .Failed
  | "cancelled" => effective_status == .Cancelled
  | "implementation" => effective_status == .InImplementation
  | "testcreation" => effective_status == .TestCreation
  | "testing" => effective_status == .Testing
  | "aireview" => effective_status == .AIReview
  | _ => false

/-- server.rs `TaskQueueServer::list_tasks`: filter by the task's `project`
string field and by effective status, then substitute the effective status
into each returned task's `status` field. -/
def list_tasks (st : ServerState) (project : Option String) (status : Option String) :
    List Task :=
  let filtered_tasks : List Task := mapValues st.tasks
  let filtered_tasks : List Task :=
    match project with
    | some project => filtered_tasks.filter fun task => task.project = some project
    | none => filtered_tasks
  let filtered_tasks : List Task :=
    match status with
    | some status => filtered_tasks.filter fun task =>
        status_filter_matches status (get_effective_task_status task)
    | none => filtered_tasks
  filtered_tasks.map fun task => { task with status := get_effective_task_status task }

/-- The dependency targets of the (first) task with a given id in a workflow's
embedded task list: `tasks.iter().find(|t| t.id == task_id)` followed by the
iteration over its `dependencies` in `has_cycle`. -/
def deps_of (tasks : List Task) (task_id : Nat) : List Nat :=
  match tasks.find? (fun t => t.id == task_id) with
  | some task => task.dependencies.map (fun d => d.task_id)
  | none => []

/-- Every node id the DFS can ever visit: the embedded task ids and every
dependency target they mention. Used only to size the fuel. -/
def all_nodes (tasks : List Task) : List Nat :=
  tasks.map (fun t => t.id) ++ tasks.flatMap (fun t => t.dependencies.map (fun d => d.task_id))

/-- server.rs `TaskQueueServer::has_cycle`, written over the pending
dependency list of the node most recently pushed: `visited` and `path` are the
`visited` and `rec_stack` sets (the path holds the current call chain, newest
first). Entering a node `d` inserts it into both sets and recurses into its
dependency list; `fuel` is an artificial bound, decremented on each node
entry, that the correctness lemmas show is never exhausted when it starts at
`(all_nodes tasks).length`. -/
def has_cycle_dfs (tasks : List Task) (fuel : Nat) (ds : List Nat)
    (visited path : List Nat) : Bool × List Nat :=
  match ds with
  | [] => (false, visited)
  | d :: rest =>
    if d ∈ visited then
      if d ∈ path then (true, visited)
      else has_cycle_dfs tasks fuel rest visited path
    else
      match fuel with
      | 0 => (true, visited)
      | f + 1 =>
        match has_cycle_dfs tasks f (deps_of tasks d) (d :: visited) (d :: path) with
        | (true, visited2) => (true, visited2)
        | (false, visited2) => has_cycle_dfs tasks (f + 1) rest visited2 path
termination_by (fuel, ds.length)

/-- The outer loop of server.rs `check_circular_dependencies`: start a DFS at
every not-yet-visited embedded task, threading the shared `visited` set. -/
def check_circular_loop (tasks : List Task) (fuel : Nat) :
    List Task → List Nat → Bool
  | [], _ => false
  | task :: rest, visited =>
    if task.id ∈ visited then check_circular_loop tasks fuel rest visited
    else
      match has_cycle_dfs tasks fuel (deps_of tasks task.id) (task.id :: visited) [task.id] with
      | (true, _) => true
      | (false, visited2) => check_circular_loop tasks fuel rest visited2

/-- server.rs `TaskQueueServer::check_circular_dependencies` (as a Bool:
`true` means a cycle was reported). -/
def check_circular_dependencies (workflow : Workflow) : Bool :=
  check_circular_loop workflow.tasks (all_nodes workflow.tasks).length workflow.tasks []

/-- server.rs `TaskQueueServer::validate_workflow`. -/
def validate_workflow (workflow : Workflow) : Except TaskQueueError Unit :=
  if workflow.name.isEmpty then
    .error (.WorkflowValidationFailed "Workflow name cannot be empty")
  else if workflow.tasks.isEmpty then
    .error (.WorkflowValidationFailed "Workflow must contain at least one task")
  else if check_circular_dependencies workflow then
    .error (.CircularDependency "Circular dependency detected in workflow")
  else .ok ()

/-- server.rs `TaskQueueServer::submit_workflow`: validate, insert into the
in-memory map, persist. -/
def submit_workflow (st : ServerState) (workflow : Workflow) :
    ServerState × Except TaskQueueError Nat :=
  match validate_workflow workflow with
  | .error e => (st, .error e)
  | .ok () =>
    let workflow_id := workflow.id
    let st1 := { st with workflows := mapInsert st.workflows workflow_id workflow }
    match store_workflow st1 workflow with
    | (st2, .error e) => (st2, .error e)
    | (st2, .ok ()) => (st2, .ok workflow_id)

/-! ## Specification-side definitions

These are written from the wording of the design document (and of the claims
derived from it), to be compared with the embedded code above. -/

/-- The §4.3 legal-transition table as the specification words it:
Planning→Implementation, Implementation→TestCreation, TestCreation→Testing,
Testing→AIReview, AIReview→Finalized (gated on the review counters),
AIReview→Implementation, Failed→Implementation, Failed→Planning,
any→Cancelled, and any→itself. -/
def legal_transition_table (src dst : TaskStatus) (completed required : Nat) : Prop :=
  (src = .Planning ∧ dst = .Implementation) ∨
  (src = .Implementation ∧ dst = .TestCreation) ∨
  (src = .TestCreation ∧ dst = .Testing) ∨
  (src = .Testing ∧ dst = .AIReview) ∨
  (src = .AIReview ∧ dst = .Finalized ∧ completed ≥ required) ∨
  (src = .AIReview ∧ dst = .Implementation) ∨
  (src = .Failed ∧ dst = .Implementation) ∨
  (src = .Failed ∧ dst = .Planning) ∨
  dst = .Cancelled ∨
  src = dst

instance (src dst : TaskStatus) (completed required : Nat) :
    Decidable (legal_transition_table src dst completed required) := by
  unfold legal_transition_table; infer_instance

/-- The §4.4 effective-status rule as the specification words it: (1) no
workflow → `current_phase`; (2) workflow attached and `NotStarted` → the
trivial mapping of `current_phase` with anything unlisted mapping to
Planning; (3) otherwise the image of `workflow_status`. -/
def effective_status_spec (t : Task) : TaskStatus :=
  match t.development_workflow with
  | none => t.current_phase
  | some w =>
    match w.workflow_status with
    | .NotStarted =>
      match t.current_phase with
      | .Planning => .Planning
      | .Implementation => .Implementation
      | .TestCreation => .TestCreation
      | .Testing => .Testing
      | .AIReview => .AIReview
      | .Finalized => .Finalized
      | .Completed => .Completed
      | .Failed => .Failed
      | .Cancelled => .Cancelled
      | _ => .Planning
    | .Planning => .Planning
    | .InImplementation => .Implementation
    | .TestCreation => .TestCreation
    | .Testing => .Testing
    | .AIReview => .AIReview
    | .Completed => .Completed
    | .Failed => .Failed

/-- The dependency graph over a workflow's embedded tasks, as the spec words
it: an edge from `u` to `v` when the task with id `u` lists `v` among its
dependency targets. -/
def edge (tasks : List Task) (u v : Nat) : Prop := v ∈ deps_of tasks u

/-- A cycle in the dependency graph: some node reaches itself in one or more
edge steps. -/
def has_cycle_spec (tasks : List Task) : Prop :=
  ∃ v, Relation.TransGen (edge tasks) v v

/-- Spec wording of when one recorded result satisfies a dependency
condition: Completion matches any recorded result, Success matches only
Success, Failure matches only Failure (a Custom condition matches nothing). -/
def condition_matches_spec : DependencyCondition → TaskResult → Prop
  | .Completion, _ => True
  | .Success, .Success _ _ _ => True
  | .Failure, .Failure _ _ _ => True
  | _, _ => False

/-- Spec wording of a satisfied dependency: the referenced task has a
recorded result in `c` and the condition holds on it. -/
def dependency_satisfied_spec (d : Dependency) (c : List (Nat × TaskResult)) : Prop :=
  ∃ r, mapLookup c d.task_id = some r ∧ condition_matches_spec d.condition r

/-- The readiness criterion exactly as claim C7 words it: every *required*
dependency has a satisfying entry. -/
def required_deps_ready_spec (t : Task) (c : List (Nat × TaskResult)) : Prop :=
  ∀ d ∈ t.dependencies, d.required = true → dependency_satisfied_spec d c

/-- The readiness criterion the code actually implements: *every* dependency
(required or not) has a satisfying entry. -/
def all_deps_ready_spec (t : Task) (c : List (Nat × TaskResult)) : Prop :=
  ∀ d ∈ t.dependencies, dependency_satisfied_spec d c

/-- ASCII lowercasing of a character, for the case-insensitive matching the
claim describes. -/
def lower_char (c : Char) : Char :=
  if 65 ≤ c.toNat ∧ c.toNat ≤ 90 then Char.ofNat (c.toNat + 32) else c

/-- ASCII lowercasing of a string. -/
def lower_string (s : String) : String := ⟨s.data.map lower_char⟩

/-- Claim C6's wording of the status filter: the filter string is matched
case-insensitively against the accepted status names, with `implementation`
selecting effective status `Implementation`. -/
def claim_status_matches (s : String) (effective : TaskStatus) : Prop :=
  (lower_string s = "planning" ∧ effective = .Planning) ∨
  (lower_string s = "pending" ∧ effective = .Pending) ∨
  (lower_string s = "running" ∧ effective = .Running) ∨
  (lower_string s = "completed" ∧ effective = .Completed) ∨
  (lower_string s = "failed" ∧ effective = .Failed) ∨
  (lower_string s = "cancelled" ∧ effective = .Cancelled) ∨
  (lower_string s = "implementation" ∧ effective = .Implementation) ∨
  (lower_string s = "testcreation" ∧ effective = .TestCreation) ∨
  (lower_string s = "testing" ∧ effective = .Testing) ∨
  (lower_string s = "aireview" ∧ effective = .AIReview)

/-- Claim C6 as stated, at a given state and filter pair: the returned list
holds exactly the stored tasks whose project id matches the project filter
and whose effective status matches the status filter (case-insensitively),
each reported with its effective status substituted in. -/
def list_tasks_claim (st : ServerState) (project status : Option String) : Prop :=
  ∀ x, x ∈ list_tasks st project status ↔
    ∃ t, t ∈ mapValues st.tasks ∧
      (∀ p ∈ project, ∃ pid, t.project_id = some pid ∧ toString pid = p) ∧
      (∀ s ∈ status, claim_status_matches s (get_effective_task_status t)) ∧
      x = { t with status := get_effective_task_status t }

/-- The status filter semantics the code actually implements, as an
enumerated table: exact lower-case names, with `implementation` selecting the
legacy `InImplementation` status. -/
def status_matches_spec (s : String) (effective : TaskStatus) : Prop :=
  (s = "planning" ∧ effective = .Planning) ∨
  (s = "pending" ∧ effective = .Pending) ∨
  (s = "running" ∧ effective = .Running) ∨
  (s = "completed" ∧ effective = .Completed) ∨
  (s = "failed" ∧ effective = .Failed) ∨
  (s = "cancelled" ∧ effective = .Cancelled) ∨
  (s = "implementation" ∧ effective = .InImplementation) ∨
  (s = "testcreation" ∧ effective = .TestCreation) ∨
  (s = "testing" ∧ effective = .Testing) ∨
  (s = "aireview" ∧ effective = .AIReview)

/-- The phase name of the last entry of a task's phase history. -/
def last_phase_name (t : Task) : Option TaskStatus :=
  (t.phases.getLast?).map (fun p => p.phase)

/-! ## DFS proof infrastructure -/

/-- A finish-ordered node list (newest finished first): each node does not
reappear later and all its edge targets were finished before it. A graph all
of whose nodes sit in such a list is acyclic. -/
def TopoOk (tasks : List Task) : List Nat → Prop
  | [] => True
  | x :: xs => x ∉ xs ∧ (∀ v, edge tasks x v → v ∈ xs) ∧ TopoOk tasks xs

/-- The DFS call chain (newest first) is connected by edges: each node on the
path has an edge to the node pushed on top of it. -/
def PathChain (tasks : List Task) : List Nat → Prop
  | [] => True
  | [_] => True
  | a :: b :: rest => edge tasks b a ∧ PathChain tasks (b :: rest)

/-- How many universe nodes are still unvisited; the DFS fuel bound. -/
def unseen (uni visited : List Nat) : Nat :=
  (uni.filter (fun x => x ∉ visited)).length

/-! ## Concrete instances for witnesses and counterexamples -/

/-- The default `NotStarted` development workflow
(core.rs `default_development_workflow`). -/
def default_dev_workflow : DevelopmentWorkflow :=
  { technical_documentation_path := none, test_coverage_percentage := none,
    ai_review_reports := [], workflow_status := .NotStarted,
    started_at := none, completed_at := none }

/-- A freshly built task in its initial state. -/
def sample_task : Task :=
  { id := 1, name := "t1", command := "noop", description := "d",
    technical_specs := none, acceptance_criteria := [], project := none,
    task_type := .Simple, priority := .Normal, project_id := none,
    dependencies := [], timeout := none, retry_attempts := 3, retry_delay := 30,
    environment := [], working_directory := none, created_at := 0, updated_at := 0,
    status := .Planning, result := none, phases := [fresh_phase .Planning 0],
    current_phase := .Planning, ai_reviews_required := 3, ai_reviews_completed := 0,
    development_workflow := some default_dev_workflow, metadata := [] }

/-- A server state holding just `sample_task`, with working storage. -/
def c1_state : ServerState :=
  { tasks := [(1, sample_task)], workflows := [], projects := [],
    storageTasks := [(1, sample_task)], storageWorkflows := [],
    storageProjects := [], storageOk := true }

/-- A concrete project for the persistence-coherence counterexample. -/
def c4_project : Project :=
  { id := 1, name := "alpha", description := none, status := .Planning,
    created_at := 0, updated_at := 0, due_date := none, tags := [], metadata := [] }

/-- A task referencing `c4_project`. -/
def c4_task : Task := { sample_task with id := 2, project_id := some 1 }

/-- A coherent state: project and task present identically in memory and
storage. -/
def c4_state : ServerState :=
  { tasks := [(2, c4_task)], workflows := [], projects := [(1, c4_project)],
    storageTasks := [(2, c4_task)], storageWorkflows := [],
    storageProjects := [(1, c4_project)], storageOk := true }

/-- A task whose effective status is `Implementation` (workflow attached,
still `NotStarted`, `current_phase` advanced). -/
def c6_task : Task :=
  { sample_task with id := 2, status := .Implementation, current_phase := .Implementation }

/-- A state holding just `c6_task`. -/
def c6_state : ServerState :=
  { tasks := [(2, c6_task)], workflows := [], projects := [],
    storageTasks := [(2, c6_task)], storageWorkflows := [],
    storageProjects := [], storageOk := true }

/-- A task with a single non-required dependency that has no recorded
result. -/
def c7_task : Task :=
  { sample_task with dependencies :=
      [{ task_id := 9, task_name := none, condition := .Success,
         required := false, correlation_id := none, metadata := [] }] }

/-- A task sitting in `AIReview` with all required reviews collected. -/
def c8_task : Task :=
  { sample_task with
    current_phase := .AIReview
    status := .AIReview
    ai_reviews_completed := 3
    phases := [fresh_phase .Planning 0, fresh_phase .AIReview 1] }

/-- A concrete phase-level AI review. -/
def c9_review : AIReview :=
  { model_name := "m", review_result := "ok", score := 9 / 10,
    suggestions := [], approved := true, reviewed_at := 5 }

/-- A concrete workflow-level AI review report. -/
def c9_report : AIDevelopmentReview :=
  { model_name := "m", review_type := .CodeQuality, content := "ok",
    score := 9 / 10, approved := true, suggestions := [], reviewed_at := 5 }

/-- Workflow task A, depending on B. -/
def cyc_task_a : Task :=
  { sample_task with id := 10, name := "A", dependencies :=
      [{ task_id := 11, task_name := none, condition := .Success,
         required := true, correlation_id := none, metadata := [] }] }

/-- Workflow task B, depending on A. -/
def cyc_task_b : Task :=
  { sample_task with id := 11, name := "B", dependencies :=
      [{ task_id := 10, task_name := none, condition := .Success,
         required := true, correlation_id := none, metadata := [] }] }

/-- A two-task workflow whose dependency graph is the cycle A ↔ B. -/
def cyc_workflow : Workflow :=
  { id := 5, name := "w", description := none, tasks := [cyc_task_a, cyc_task_b],
    dependencies := [], created_at := 0, updated_at := 0, status := .Pending }

/-- An empty server state with working storage. -/
def empty_state : ServerState :=
  { tasks := [], workflows := [], projects := [], storageTasks := [],
    storageWorkflows := [], storageProjects := [], storageOk := true }

/-! ## Shared lemmas -/

theorem mapLookup_insert_self {α : Type} (m : List (Nat × α)) (k : Nat) (v : α) :
    mapLookup (mapInsert m k v) k = some v := by
  induction m with
  | nil => simp [mapInsert, mapLookup]
  | cons p rest ih =>
    by_cases h : p.1 = k
    · simp [mapInsert, mapLookup, h]
    · simp [mapInsert, mapLookup, h, ih]

theorem mapLookup_remove_self {α : Type} (m : List (Nat × α)) (k : Nat) :
    mapLookup (mapRemove m k) k = none := by
  induction m with
  | nil => simp [mapRemove, mapLookup]
  | cons p rest ih =>
    by_cases h : p.1 = k
    · simp [mapRemove, h, ih]
    · simp [mapRemove, mapLookup, h, ih]

/-- The effective status only reads the attached workflow and
`current_phase`. -/
theorem get_effective_frame (t t2 : Task)
    (hw : t2.development_workflow = t.development_workflow)
    (hp : t2.current_phase = t.current_phase) :
    get_effective_task_status t2 = get_effective_task_status t := by
  unfold get_effective_task_status
  rw [hw, hp]

/-! ## C2: effective-status reconciliation -/

/-- C2: the effective-status function is the pure function described in §4.4:
`current_phase` when no workflow is attached, the trivial mapping of
`current_phase` (unlisted ↦ Planning) when the attached workflow is
`NotStarted`, and otherwise the stated image of `workflow_status`. -/
theorem effective_status_matches_spec (t : Task) :
    get_effective_task_status t = effective_status_spec t := by
  unfold get_effective_task_status effective_status_spec
  cases hdw : t.development_workflow with
  | none => rfl
  | some w =>
    cases hws : w.workflow_status <;> cases hcp : t.current_phase <;> simp [hws, hcp]

/-! ## C7: readiness predicate -/

/-- `condition_matches` agrees with its spec wording. -/
theorem condition_matches_iff (c : DependencyCondition) (r : TaskResult) :
    condition_matches c r = true ↔ condition_matches_spec c r := by
  cases c <;> cases r <;> simp [condition_matches, condition_matches_spec]

/-- C7 (amended): `is_ready` is true iff *every* dependency — the `required`
flag is ignored — has a recorded result in `c` satisfying its condition. -/
theorem is_ready_iff_all_deps (t : Task) (c : List (Nat × TaskResult)) :
    t.is_ready c = true ↔ all_deps_ready_spec t c := by
  unfold Task.is_ready all_deps_ready_spec
  rw [List.all_eq_true]
  refine forall_congr' fun d => ?_
  refine forall_congr' fun _ => ?_
  cases hl : mapLookup c d.task_id with
  | none => simp [dependency_satisfied_spec, hl]
  | some r => simp [dependency_satisfied_spec, hl, condition_matches_iff]

/-- C7 (counterexample): a task with a single non-required unsatisfied
dependency is not ready, although every required dependency is satisfied —
so readiness is not equivalent to the required-only criterion. -/
theorem is_ready_required_only_false :
    ¬ (c7_task.is_ready [] = true ↔ required_deps_ready_spec c7_task []) := by
  intro h
  have hv : required_deps_ready_spec c7_task [] := by
    intro d hd hreq
    simp [c7_task, sample_task] at hd
    rw [hd] at hreq
    simp at hreq
  have := h.mpr hv
  simp [c7_task, sample_task, Task.is_ready, mapLookup] at this

/-! ## C1: the legal-transition table -/

/-- `Task::can_transition_to` decides exactly the §4.3 table. -/
theorem can_transition_to_iff_table (t : Task) (s : TaskStatus) :
    t.can_transition_to s = true ↔
      legal_transition_table t.current_phase s t.ai_reviews_completed t.ai_reviews_required := by
  unfold Task.can_transition_to legal_transition_table
  cases hc : t.current_phase <;> cases s <;> simp

/-- `Task::set_status` succeeds exactly when `can_transition_to` does. -/
theorem set_status_isOk_iff (t : Task) (s : TaskStatus) (now : Nat) :
    (t.set_status s now).isOk = true ↔ t.can_transition_to s = true := by
  unfold Task.set_status
  by_cases h : t.can_transition_to s = true <;> simp [h, Except.isOk, Except.toBool]

/-- C1: at the service boundary, setting a task's status succeeds exactly
when `(current_phase, target)` is in the §4.3 legal-transition table (with
AIReview→Finalized gated on the review counters), and any other pair fails
with `InvalidStatusTransition`. -/
theorem set_task_status_legal_table (st : ServerState) (task_id : Nat) (t : Task)
    (s : TaskStatus) (now : Nat)
    (hfind : mapLookup st.tasks task_id = some t)
    (hstore : st.storageOk = true) :
    ((set_task_status st task_id s now).2.isOk = true ↔
      legal_transition_table t.current_phase s t.ai_reviews_completed t.ai_reviews_required)
    ∧ (¬ legal_transition_table t.current_phase s t.ai_reviews_completed t.ai_reviews_required →
        ∃ msg, (set_task_status st task_id s now).2 = .error (.InvalidStatusTransition msg)) := by
  unfold set_task_status
  simp only [hfind]
  by_cases h : t.can_transition_to s = true
  · have htab := (can_transition_to_iff_table t s).mp h
    obtain ⟨t2, ht2⟩ : ∃ t2, t.set_status s now = .ok t2 := by
      unfold Task.set_status
      simp [h]
    simp [ht2, store_task, hstore, Except.isOk, Except.toBool, htab]
  · have htab : ¬ legal_transition_table t.current_phase s
        t.ai_reviews_completed t.ai_reviews_required :=
      fun hl => h ((can_transition_to_iff_table t s).mpr hl)
    obtain ⟨msg, herr⟩ : ∃ msg, t.set_status s now = .error msg := by
      unfold Task.set_status
      simp [h]
    simp [herr, Except.isOk, Except.toBool, htab]

/-- C1 witness: `Planning → Implementation` on a concrete stored task. -/
theorem set_task_status_legal_table_witness :
    ((set_task_status c1_state 1 .Implementation 5).2.isOk = true ↔
      legal_transition_table sample_task.current_phase .Implementation
        sample_task.ai_reviews_completed sample_task.ai_reviews_required)
    ∧ (¬ legal_transition_table sample_task.current_phase .Implementation
          sample_task.ai_reviews_completed sample_task.ai_reviews_required →
        ∃ msg, (set_task_status c1_state 1 .Implementation 5).2 =
          .error (.InvalidStatusTransition msg)) :=
  set_task_status_legal_table c1_state 1 sample_task .Implementation 5 rfl rfl

/-! ## C8: `current_phase` versus the phase history -/

/-- Closing the last history entry does not change its phase name. -/
theorem close_last_phase_getLast (now : Nat) :
    ∀ ps : List TaskPhase,
      ((close_last_phase ps now).getLast?).map (fun p => p.phase) =
        (ps.getLast?).map (fun p => p.phase)
  | [] => rfl
  | [p] => rfl
  | p :: q :: rest => by
    have ih := close_last_phase_getLast now (q :: rest)
    have hsh : close_last_phase (p :: q :: rest) now =
        p :: close_last_phase (q :: rest) now := rfl
    rw [hsh]
    cases hcl : close_last_phase (q :: rest) now with
    | nil =>
      exfalso
      cases rest <;> simp [close_last_phase] at hcl
    | cons x xs =>
      rw [List.getLast?_cons_cons, ← hcl, ih, List.getLast?_cons_cons]

/-- The transitions into `Finalized` (from elsewhere) and into
`Implementation` from anywhere but `AIReview` do not append a history entry:
the exceptional pairs of the amended C8. -/
def phase_history_exception (t : Task) (s : TaskStatus) : Prop :=
  (s = .Finalized ∧ t.current_phase ≠ .Finalized) ∨
  (s = .Implementation ∧ t.current_phase ≠ .AIReview ∧ t.current_phase ≠ .Implementation)

/-- C8 (amended): after a successful `set_status` or `advance_phase` from a
state where `current_phase` agrees with the last history entry, the two still
agree — except for a transition into `Finalized` from another phase (it only
closes the final phase) and for a transition into `Implementation` from
anywhere but `AIReview` (the source only appends an `Implementation` entry on
the AIReview rollback edge), where the last entry keeps the previous phase
name. -/
theorem set_status_phase_history :
    (∀ (t : Task) (s : TaskStatus) (now : Nat) (t2 : Task),
      last_phase_name t = some t.current_phase →
      t.set_status s now = .ok t2 →
      (phase_history_exception t s →
        last_phase_name t2 = some t.current_phase ∧ t2.current_phase = s)
      ∧ (¬ phase_history_exception t s →
        last_phase_name t2 = some t2.current_phase))
    ∧ (∀ (t : Task) (now : Nat) (t2 : Task),
      last_phase_name t = some t.current_phase →
      t.advance_phase now = .ok t2 →
      (t.current_phase = .Planning →
        last_phase_name t2 = some .Planning ∧ t2.current_phase = .Implementation)
      ∧ (t.current_phase = .AIReview →
        last_phase_name t2 = some .AIReview ∧ t2.current_phase = .Finalized)
      ∧ (t.current_phase ≠ .Planning → t.current_phase ≠ .AIReview →
        last_phase_name t2 = some t2.current_phase)) := by
  have hmain : ∀ (t : Task) (s : TaskStatus) (now : Nat) (t2 : Task),
      last_phase_name t = some t.current_phase →
      t.set_status s now = .ok t2 →
      (phase_history_exception t s →
        last_phase_name t2 = some t.current_phase ∧ t2.current_phase = s)
      ∧ (¬ phase_history_exception t s →
        last_phase_name t2 = some t2.current_phase) := by
    intro t s now t2 hinv hok
    unfold Task.set_status at hok
    by_cases hcan : t.can_transition_to s = true
    · rw [if_neg (by simp [hcan])] at hok
      replace hok := (Except.ok.injEq _ _).mp hok
      subst hok
      cases s
      on_goal 6 =>
        constructor
        · intro hex
          rcases hex with ⟨_, _⟩ | ⟨hs, _, _⟩
          · refine ⟨?_, rfl⟩
            simp only [last_phase_name] at hinv ⊢
            rw [close_last_phase_getLast]
            exact hinv
          · exact absurd hs (by decide)
        · intro hnex
          have hfin : t.current_phase = .Finalized := by
            by_contra hni
            exact hnex (Or.inl ⟨rfl, hni⟩)
          simp only [last_phase_name] at hinv ⊢
          rw [close_last_phase_getLast, hinv, hfin]
      on_goal 2 =>
        constructor
        · intro hex
          rcases hex with ⟨hs, _⟩ | ⟨_, hne, _⟩
          · exact absurd hs (by decide)
          · refine ⟨?_, rfl⟩
            simp only [last_phase_name] at hinv ⊢
            rw [if_neg hne]
            exact hinv
        · intro hnex
          simp only [last_phase_name] at hinv ⊢
          by_cases hair : t.current_phase = .AIReview
          · rw [if_pos hair, List.getLast?_concat]
            rfl
          · have himp : t.current_phase = .Implementation := by
              by_contra hni
              exact hnex (Or.inr ⟨rfl, hair, hni⟩)
            rw [if_neg hair, hinv, himp]
      all_goals {
        constructor
        · intro hex
          rcases hex with ⟨hs, _⟩ | ⟨hs, _, _⟩ <;> exact absurd hs (by decide)
        · intro hnex
          simp only [last_phase_name] at hinv ⊢
          split
          · rw [List.getLast?_concat]
            rfl
          · rename_i hcond
            rw [hinv]
            simp only [ne_eq, not_not] at hcond
            rw [hcond]
      }
    · rw [if_pos (by simp [hcan])] at hok
      exact absurd hok (by simp)
  refine ⟨hmain, ?_⟩
  intro t now t2 hinv hok
  unfold Task.advance_phase at hok
  refine ⟨?_, ?_, ?_⟩
  · intro hp
    rw [hp] at hok
    have hok2 : t.set_status .Implementation now = .ok t2 := hok
    have h := (hmain t .Implementation now t2 hinv hok2).1
      (Or.inr ⟨rfl, by rw [hp]; decide, by rw [hp]; decide⟩)
    rw [← hp]
    exact h
  · intro hp
    rw [hp] at hok
    by_cases hrev : t.ai_reviews_completed ≥ t.ai_reviews_required
    · have hok2 : t.set_status .Finalized now = .ok t2 := by
        have : (if t.ai_reviews_completed ≥ t.ai_reviews_required
            then t.set_status .Finalized now
            else Except.error ("Need " ++ toString t.ai_reviews_required
              ++ " AI reviews, only " ++ toString t.ai_reviews_completed
              ++ " completed")) = .ok t2 := hok
        rwa [if_pos hrev] at this
      have h := (hmain t .Finalized now t2 hinv hok2).1
        (Or.inl ⟨rfl, by rw [hp]; decide⟩)
      rw [← hp]
      exact h
    · exfalso
      have : (if t.ai_reviews_completed ≥ t.ai_reviews_required
          then t.set_status .Finalized now
          else Except.error ("Need " ++ toString t.ai_reviews_required
            ++ " AI reviews, only " ++ toString t.ai_reviews_completed
            ++ " completed")) = .ok t2 := hok
      rw [if_neg hrev] at this
      exact absurd this (by simp)
  · intro hp hair
    cases hcp : t.current_phase
    case Planning => exact absurd hcp hp
    case AIReview => exact absurd hcp hair
    case Implementation =>
      rw [hcp] at hok
      have hok2 : t.set_status .TestCreation now = .ok t2 := hok
      exact (hmain t .TestCreation now t2 hinv hok2).2
        (by simp [phase_history_exception])
    case TestCreation =>
      rw [hcp] at hok
      have hok2 : t.set_status .Testing now = .ok t2 := hok
      exact (hmain t .Testing now t2 hinv hok2).2
        (by simp [phase_history_exception])
    case Testing =>
      rw [hcp] at hok
      have hok2 : t.set_status .AIReview now = .ok t2 := hok
      exact (hmain t .AIReview now t2 hinv hok2).2
        (by simp [phase_history_exception])
    all_goals {
      rw [hcp] at hok
      exact absurd hok (by simp)
    }

/-- C8 (counterexample): from `AIReview` with all reviews collected, a
successful transition into `Finalized` leaves the last history entry named
`AIReview` while `current_phase` becomes `Finalized`. -/
theorem set_status_finalized_breaks_history :
    ∃ t2, c8_task.set_status .Finalized 5 = .ok t2 ∧
      last_phase_name t2 ≠ some t2.current_phase :=
  ⟨_, rfl, by decide⟩

/-- C8 witness: the amended statement applied to the concrete `Finalized`
transition. -/
theorem set_status_phase_history_witness :
    ∃ t2, c8_task.set_status .Finalized 5 = .ok t2 ∧
      last_phase_name t2 = some c8_task.current_phase ∧ t2.current_phase = .Finalized := by
  obtain ⟨t2, ht2⟩ : ∃ t2, c8_task.set_status .Finalized 5 = .ok t2 := ⟨_, rfl⟩
  have h := (set_status_phase_history.1 c8_task .Finalized 5 t2 (by decide) ht2).1
    (Or.inl ⟨rfl, by decide⟩)
  exact ⟨t2, ht2, h.1, h.2⟩

/-! ## C9: `ai_reviews_completed` versus the workflow's report list -/

/-- C9 (amended): the server's `add_ai_review_report` establishes the counter
invariant — it sets `ai_reviews_completed` to the length of the workflow's
report list — while the core's `Task::add_ai_review` increments the counter
without touching the attached workflow's report list, so it does not maintain
that equality. -/
theorem add_ai_review_report_counter :
    (∀ (st : ServerState) (task_id : Nat) (t : Task) (w : DevelopmentWorkflow)
        (review : AIDevelopmentReview) (now : Nat),
      mapLookup st.tasks task_id = some t →
      t.development_workflow = some w →
      st.storageOk = true →
      ∃ st2 t2 w2, add_ai_review_report st task_id review now = (st2, .ok ()) ∧
        mapLookup st2.tasks task_id = some t2 ∧
        t2.development_workflow = some w2 ∧
        t2.ai_reviews_completed = w2.ai_review_reports.length)
    ∧ (∀ (t : Task) (review : AIReview) (now : Nat),
      t.phases ≠ [] →
      (t.add_ai_review review now).ai_reviews_completed = t.ai_reviews_completed + 1
      ∧ (t.add_ai_review review now).development_workflow = t.development_workflow) := by
  constructor
  · intro st task_id t w review now hfind hw hstore
    unfold add_ai_review_report
    simp only [hfind, hw]
    simp only [store_task, hstore, if_true]
    exact ⟨_, _, _, rfl, mapLookup_insert_self _ _ _, rfl, rfl⟩
  · intro t review now hps
    unfold Task.add_ai_review
    cases hp : t.phases with
    | nil => exact absurd hp hps
    | cons p rest => exact ⟨rfl, rfl⟩

/-- C9 (counterexample): `Task::add_ai_review` on a fresh task with an
attached workflow leaves the counter at 1 while the workflow's report list is
still empty, so the claimed equality fails after this review-adding
operation. -/
theorem add_ai_review_breaks_counter :
    ∃ w2, (sample_task.add_ai_review c9_review 5).development_workflow = some w2 ∧
      (sample_task.add_ai_review c9_review 5).ai_reviews_completed ≠
        w2.ai_review_reports.length :=
  ⟨default_dev_workflow, by decide, by decide⟩

/-- C9 witness: the server operation applied to the concrete stored task. -/
theorem add_ai_review_report_counter_witness :
    ∃ st2 t2 w2, add_ai_review_report c1_state 1 c9_report 5 = (st2, .ok ()) ∧
      mapLookup st2.tasks 1 = some t2 ∧
      t2.development_workflow = some w2 ∧
      t2.ai_reviews_completed = w2.ai_review_reports.length :=
  add_ai_review_report_counter.1 c1_state 1 sample_task default_dev_workflow
    c9_report 5 rfl rfl rfl

/-! ## C10: cancellation frame -/

/-- C10: cancelling an existing task sets its `status` to `Cancelled` and its
`result` to `Cancelled{reason}`, and leaves `current_phase`, the phase
history, and the attached development workflow unchanged — so the effective
status is unchanged by cancellation. -/
theorem cancel_task_frame (st : ServerState) (task_id : Nat) (t : Task)
    (reason : String) (now : Nat)
    (hfind : mapLookup st.tasks task_id = some t)
    (hstore : st.storageOk = true) :
    ∃ st2 t2, cancel_task st task_id reason now = (st2, .ok ()) ∧
      mapLookup st2.tasks task_id = some t2 ∧
      t2.status = .Cancelled ∧
      t2.result = some (.Cancelled reason) ∧
      t2.current_phase = t.current_phase ∧
      t2.phases = t.phases ∧
      t2.development_workflow = t.development_workflow ∧
      get_effective_task_status t2 = get_effective_task_status t := by
  unfold cancel_task
  simp only [hfind]
  simp only [store_task, hstore, if_true]
  exact ⟨_, _, rfl, mapLookup_insert_self _ _ _, rfl, rfl, rfl, rfl, rfl,
    get_effective_frame t _ rfl rfl⟩

/-- C10 witness: cancelling the concrete stored task. -/
theorem cancel_task_frame_witness :
    ∃ st2 t2, cancel_task c1_state 1 "stop" 5 = (st2, .ok ()) ∧
      mapLookup st2.tasks 1 = some t2 ∧
      t2.status = .Cancelled ∧
      t2.result = some (.Cancelled "stop") ∧
      t2.current_phase = sample_task.current_phase ∧
      t2.phases = sample_task.phases ∧
      t2.development_workflow = sample_task.development_workflow ∧
      get_effective_task_status t2 = get_effective_task_status sample_task :=
  cancel_task_frame c1_state 1 sample_task "stop" 5 rfl rfl

/-! ## C5: test-coverage range -/

/-- C5: the service stores *any* coverage value — the source performs no
range check — so out-of-range values such as 1.01 are accepted rather than
rejected with `ValidationError`. -/
theorem set_test_coverage_accepts_any (st : ServerState) (task_id : Nat) (t : Task)
    (w : DevelopmentWorkflow) (coverage : ℚ) (now : Nat)
    (hfind : mapLookup st.tasks task_id = some t)
    (hw : t.development_workflow = some w)
    (hstore : st.storageOk = true) :
    ∃ st2 t2, set_test_coverage st task_id coverage now = (st2, .ok ()) ∧
      mapLookup st2.tasks task_id = some t2 ∧
      t2.development_workflow =
        some { w with test_coverage_percentage := some coverage } := by
  unfold set_test_coverage
  simp only [hfind, hw]
  simp only [store_task, hstore, if_true]
  exact ⟨_, _, rfl, mapLookup_insert_self _ _ _, rfl⟩

/-- C5 witness: the out-of-range value 1.01 is accepted and stored. -/
theorem set_test_coverage_accepts_any_witness :
    ∃ st2 t2, set_test_coverage c1_state 1 (101 / 100) 5 = (st2, .ok ()) ∧
      mapLookup st2.tasks 1 = some t2 ∧
      t2.development_workflow =
        some { default_dev_workflow with test_coverage_percentage := some (101 / 100) } :=
  set_test_coverage_accepts_any c1_state 1 sample_task default_dev_workflow
    (101 / 100) 5 rfl rfl rfl

/-! ## C4: persistence coherence -/

/-- C4 (counterexample): deleting a project succeeds but leaves the affected
task's in-memory value (project reference cleared) different from its stored
value (stale reference kept), so the store and the map do not agree on every
affected entity after a successful mutation. -/
theorem delete_project_stale_storage :
    ∃ st2, delete_project c4_state 1 = (st2, .ok ()) ∧
      mapLookup st2.tasks 2 ≠ mapLookup st2.storageTasks 2 :=
  ⟨_, rfl, by decide⟩

/-- C4 (amended): after a successful mutation the store and the map agree on
the entity directly written (shown for `submit_task`); but `delete_project`
clears task project references only in memory and leaves the task keyspace of
the store untouched, and a `submit_task` whose persistence step fails keeps
the in-memory insertion (no rollback) while the store is unchanged. -/
theorem write_through_partial :
    (∀ (st : ServerState) (task : Task),
      validate_task st task = .ok () → st.storageOk = true →
      ∃ st2, submit_task st task = (st2, .ok task.id) ∧
        mapLookup st2.tasks task.id = some task ∧
        mapLookup st2.storageTasks task.id = some task)
    ∧ (∀ (st : ServerState) (task : Task),
      validate_task st task = .ok () → st.storageOk = false →
      ∃ st2, submit_task st task = (st2, .error .StorageError) ∧
        mapLookup st2.tasks task.id = some task ∧
        st2.storageTasks = st.storageTasks)
    ∧ (∀ (st : ServerState) (project_id : Nat) (p : Project),
      mapLookup st.projects project_id = some p → st.storageOk = true →
      ∃ st2, delete_project st project_id = (st2, .ok ()) ∧
        mapLookup st2.projects project_id = none ∧
        mapLookup st2.storageProjects project_id = none ∧
        st2.storageTasks = st.storageTasks) := by
  refine ⟨?_, ?_, ?_⟩
  · intro st task hval hstore
    unfold submit_task
    simp only [hval]
    simp only [store_task, hstore, if_true]
    exact ⟨_, rfl, mapLookup_insert_self _ _ _, mapLookup_insert_self _ _ _⟩
  · intro st task hval hstore
    unfold submit_task
    simp only [hval]
    simp only [store_task, hstore, if_false]
    exact ⟨_, rfl, mapLookup_insert_self _ _ _, rfl⟩
  · intro st project_id p hfind hstore
    unfold delete_project
    simp only [hfind]
    simp only [storage_delete_project, hstore, if_true]
    exact ⟨_, rfl, mapLookup_remove_self _ _, mapLookup_remove_self _ _, rfl⟩

/-- C4 witness: the amended positive part on a concrete submission. -/
theorem write_through_partial_witness :
    ∃ st2, submit_task c4_state c4_task = (st2, .ok c4_task.id) ∧
      mapLookup st2.tasks c4_task.id = some c4_task ∧
      mapLookup st2.storageTasks c4_task.id = some c4_task :=
  write_through_partial.1 c4_state c4_task rfl rfl

/-! ## C6: list-tasks filtering -/

/-- The code's status-filter match agrees with its enumerated table. -/
theorem status_filter_matches_iff (s : String) (eff : TaskStatus) :
    status_filter_matches s eff = true ↔ status_matches_spec s eff := by
  unfold status_filter_matches status_matches_spec
  split <;> simp_all

/-- C6 (amended): `list_tasks` returns exactly the stored tasks whose
`project` *string field* equals the project filter (when present) and whose
effective status matches the status filter by exact lower-case name — with
`implementation` selecting the legacy `InImplementation` status — each
returned with the effective status substituted into its `status` field. -/
theorem list_tasks_characterization (st : ServerState) (project status : Option String)
    (x : Task) :
    x ∈ list_tasks st project status ↔
      ∃ t, t ∈ mapValues st.tasks ∧
        (∀ p ∈ project, t.project = some p) ∧
        (∀ s ∈ status, status_matches_spec s (get_effective_task_status t)) ∧
        x = { t with status := get_effective_task_status t } := by
  cases project with
  | none =>
    cases status with
    | none =>
      simp only [list_tasks, List.mem_map]
      constructor
      · rintro ⟨t, ht, rfl⟩
        exact ⟨t, ht, by simp, by simp, rfl⟩
      · rintro ⟨t, ht, -, -, rfl⟩
        exact ⟨t, ht, rfl⟩
    | some s =>
      simp only [list_tasks, List.mem_map, List.mem_filter]
      constructor
      · rintro ⟨t, ⟨ht, hs⟩, rfl⟩
        refine ⟨t, ht, by simp, ?_, rfl⟩
        intro s2 hs2
        rw [Option.mem_def, Option.some.injEq] at hs2
        rw [← hs2]
        exact (status_filter_matches_iff s _).mp hs
      · rintro ⟨t, ht, -, hstat, rfl⟩
        refine ⟨t, ⟨ht, ?_⟩, rfl⟩
        exact (status_filter_matches_iff s _).mpr (hstat s rfl)
  | some p =>
    cases status with
    | none =>
      simp only [list_tasks, List.mem_map, List.mem_filter]
      constructor
      · rintro ⟨t, ⟨ht, hp⟩, rfl⟩
        refine ⟨t, ht, ?_, by simp, rfl⟩
        intro p2 hp2
        rw [Option.mem_def, Option.some.injEq] at hp2
        rw [← hp2]
        exact of_decide_eq_true hp
      · rintro ⟨t, ht, hproj, -, rfl⟩
        exact ⟨t, ⟨ht, decide_eq_true (hproj p rfl)⟩, rfl⟩
    | some s =>
      simp only [list_tasks, List.mem_map, List.mem_filter]
      constructor
      · rintro ⟨t, ⟨⟨ht, hp⟩, hs⟩, rfl⟩
        refine ⟨t, ht, ?_, ?_, rfl⟩
        · intro p2 hp2
          rw [Option.mem_def, Option.some.injEq] at hp2
          rw [← hp2]
          exact of_decide_eq_true hp
        · intro s2 hs2
          rw [Option.mem_def, Option.some.injEq] at hs2
          rw [← hs2]
          exact (status_filter_matches_iff s _).mp hs
      · rintro ⟨t, ht, hproj, hstat, rfl⟩
        exact ⟨t, ⟨⟨ht, decide_eq_true (hproj p rfl)⟩,
          (status_filter_matches_iff s _).mpr (hstat s rfl)⟩, rfl⟩

/-- C6 (counterexample): a stored task whose effective status is
`Implementation` is *not* returned for the filter string `implementation`
(the code matches it against the legacy `InImplementation` status), so the
claimed filter semantics fails at this state. -/
theorem list_tasks_claim_false :
    ¬ list_tasks_claim c6_state none (some "implementation") := by
  intro h
  have hstat : ∀ s ∈ (some "implementation" : Option String),
      claim_status_matches s (get_effective_task_status c6_task) := by
    intro s hs
    rw [Option.mem_def, Option.some.injEq] at hs
    rw [← hs]
    unfold claim_status_matches
    refine Or.inr (Or.inr (Or.inr (Or.inr (Or.inr (Or.inr (Or.inl ⟨?_, ?_⟩)))))) <;> decide
  have h2 := (h { c6_task with status := .Implementation }).mpr
    ⟨c6_task, by decide, by simp, hstat, rfl⟩
  have hempty : list_tasks c6_state none (some "implementation") = [] := by decide
  rw [hempty] at h2
  exact absurd h2 (List.not_mem_nil _)

/-! ## C3: cycle detection

Step lemmas for `has_cycle_dfs`, then soundness (a reported cycle is a real
cycle) and completeness (no report means the graph is acyclic, certified by a
finish-ordered node list). -/

theorem dfs_nil (tasks : List Task) (fuel : Nat) (visited path : List Nat) :
    has_cycle_dfs tasks fuel [] visited path = (false, visited) := by
  rw [has_cycle_dfs.eq_def]

theorem dfs_cons_hit (tasks : List Task) (fuel : Nat) (d : Nat) (rest visited path : List Nat)
    (h : d ∈ visited) (hp : d ∈ path) :
    has_cycle_dfs tasks fuel (d :: rest) visited path = (true, visited) := by
  rw [has_cycle_dfs.eq_def]
  simp [h, hp]

theorem dfs_cons_skip (tasks : List Task) (fuel : Nat) (d : Nat) (rest visited path : List Nat)
    (h : d ∈ visited) (hp : d ∉ path) :
    has_cycle_dfs tasks fuel (d :: rest) visited path =
      has_cycle_dfs tasks fuel rest visited path := by
  rw [has_cycle_dfs.eq_def]
  simp [h, hp]

theorem dfs_cons_zero (tasks : List Task) (d : Nat) (rest visited path : List Nat)
    (h : d ∉ visited) :
    has_cycle_dfs tasks 0 (d :: rest) visited path = (true, visited) := by
  rw [has_cycle_dfs.eq_def]
  simp [h]

theorem dfs_cons_enter (tasks : List Task) (f : Nat) (d : Nat) (rest visited path : List Nat)
    (h : d ∉ visited) :
    has_cycle_dfs tasks (f + 1) (d :: rest) visited path =
      (match has_cycle_dfs tasks f (deps_of tasks d) (d :: visited) (d :: path) with
        | (true, visited2) => (true, visited2)
        | (false, visited2) => has_cycle_dfs tasks (f + 1) rest visited2 path) := by
  rw [has_cycle_dfs.eq_def]
  simp [h]

/-- A task found by id is a member with that id. -/
theorem find_task_mem (tasks : List Task) (v : Nat) (t : Task)
    (h : tasks.find? (fun t => t.id == v) = some t) : t ∈ tasks ∧ t.id = v := by
  refine ⟨List.mem_of_find?_eq_some h, ?_⟩
  have := List.find?_some h
  simpa using this

/-- Dependency targets live inside the node universe. -/
theorem deps_of_subset (tasks : List Task) (d : Nat) :
    deps_of tasks d ⊆ all_nodes tasks := by
  unfold deps_of
  cases hf : tasks.find? (fun t => t.id == d) with
  | none => simp
  | some t =>
    intro x hx
    unfold all_nodes
    refine List.mem_append_right _ ?_
    exact List.mem_flatMap.mpr ⟨t, (find_task_mem tasks d t hf).1, hx⟩

/-- Embedded task ids live inside the node universe. -/
theorem task_id_mem_all_nodes (tasks : List Task) (t : Task) (h : t ∈ tasks) :
    t.id ∈ all_nodes tasks := by
  unfold all_nodes
  exact List.mem_append_left _ (List.mem_map.mpr ⟨t, h, rfl⟩)

/-- Filtering with a stronger predicate keeps fewer elements. -/
theorem length_filter_implies {p q : Nat → Bool} (h : ∀ x, q x = true → p x = true) :
    ∀ l : List Nat, (l.filter q).length ≤ (l.filter p).length := by
  intro l
  induction l with
  | nil => simp
  | cons a l ih =>
    by_cases hq : q a = true
    · simp [List.filter_cons, hq, h a hq]
      omega
    · simp only [List.filter_cons, hq, if_false, Bool.false_eq_true]
      by_cases hp : p a = true <;> simp [hp] <;> omega

theorem unseen_le (uni visited : List Nat) : unseen uni visited ≤ uni.length :=
  List.length_filter_le _ _

theorem unseen_anti (uni v1 v2 : List Nat) (h : v1 ⊆ v2) :
    unseen uni v2 ≤ unseen uni v1 := by
  unfold unseen
  refine length_filter_implies (fun x hx => ?_) uni
  simp only [decide_eq_true_eq] at hx ⊢
  exact fun hmem => hx (h hmem)

theorem unseen_insert_lt (uni visited : List Nat) (d : Nat)
    (hd : d ∈ uni) (hnv : d ∉ visited) :
    unseen uni (d :: visited) < unseen uni visited := by
  induction uni with
  | nil => cases hd
  | cons a uni ih =>
    unfold unseen at ih ⊢
    rw [List.filter_cons, List.filter_cons]
    by_cases had : a = d
    · subst had
      rw [if_neg (by simp), if_pos (by simpa using hnv)]
      have hle : ((uni.filter fun x => decide (x ∉ a :: visited)).length) ≤
          ((uni.filter fun x => decide (x ∉ visited)).length) := by
        refine length_filter_implies (fun x hx => ?_) uni
        simp only [decide_eq_true_eq, List.mem_cons, not_or] at hx ⊢
        exact hx.2
      simp only [List.length_cons]
      omega
    · have hd2 : d ∈ uni := by
        cases hd with
        | head => exact absurd rfl had
        | tail _ h => exact h
      have hlt := ih hd2
      by_cases hav : a ∈ visited
      · rw [if_neg (by simp [hav]), if_neg (by simp [hav])]
        exact hlt
      · rw [if_pos (by simp [had, hav]), if_pos (by simpa using hav)]
        simp only [List.length_cons]
        omega

theorem unseen_pos (uni visited : List Nat) (d : Nat)
    (hd : d ∈ uni) (hnv : d ∉ visited) : 0 < unseen uni visited := by
  unfold unseen
  have : d ∈ uni.filter fun x => decide (x ∉ visited) := by
    refine List.mem_filter.mpr ⟨hd, ?_⟩
    simpa using hnv
  exact List.length_pos.mpr (List.ne_nil_of_mem this)

/-- The DFS only ever grows the visited set. -/
theorem dfs_visited_mono (tasks : List Task) :
    ∀ (fuel : Nat) (ds visited path : List Nat),
      visited ⊆ (has_cycle_dfs tasks fuel ds visited path).2 := by
  intro fuel
  induction fuel using Nat.strong_induction_on with
  | _ fuel ihf =>
    intro ds
    induction ds with
    | nil =>
      intro visited path
      rw [dfs_nil]
      exact fun _ hx => hx
    | cons d rest ihds =>
      intro visited path
      by_cases hdv : d ∈ visited
      · by_cases hdp : d ∈ path
        · rw [dfs_cons_hit tasks fuel d rest visited path hdv hdp]
          exact fun _ hx => hx
        · rw [dfs_cons_skip tasks fuel d rest visited path hdv hdp]
          exact ihds visited path
      · cases fuel with
        | zero =>
          rw [dfs_cons_zero tasks d rest visited path hdv]
          exact fun _ hx => hx
        | succ f =>
          rw [dfs_cons_enter tasks f d rest visited path hdv]
          cases hrec : has_cycle_dfs tasks f (deps_of tasks d) (d :: visited) (d :: path) with
          | mk b v2 =>
            have hsub : visited ⊆ v2 := by
              intro x hx
              have := ihf f (Nat.lt_succ_self f) (deps_of tasks d) (d :: visited) (d :: path)
                (List.mem_cons_of_mem _ hx)
              rw [hrec] at this
              exact this
            cases b with
            | true => exact hsub
            | false =>
              intro x hx
              exact ihds v2 path (hsub hx)

/-- Every node on the call chain reaches the chain's head. -/
theorem path_chain_reaches_head (tasks : List Task) :
    ∀ (rest : List Nat) (a : Nat), PathChain tasks (a :: rest) →
      ∀ d ∈ a :: rest, Relation.ReflTransGen (edge tasks) d a
  | [], a, _, d, hd => by
    cases hd with
    | head => exact Relation.ReflTransGen.refl
    | tail _ h => cases h
  | b :: rest2, a, hchain, d, hd => by
    have hedge : edge tasks b a := hchain.1
    have hchain2 : PathChain tasks (b :: rest2) := hchain.2
    cases hd with
    | head => exact Relation.ReflTransGen.refl
    | tail _ h =>
      exact (path_chain_reaches_head tasks rest2 b hchain2 d h).tail hedge

/-- Edges out of a finish-ordered list stay in the list. -/
theorem topo_edge_closed (tasks : List Task) :
    ∀ l : List Nat, TopoOk tasks l → ∀ u ∈ l, ∀ v, edge tasks u v → v ∈ l := by
  intro l
  induction l with
  | nil => intro _ u hu; cases hu
  | cons x xs ih =>
    intro htopo u hu v hedge
    obtain ⟨_, hx_edges, hxs⟩ := htopo
    cases hu with
    | head => exact List.mem_cons_of_mem _ (hx_edges v hedge)
    | tail _ h => exact List.mem_cons_of_mem _ (ih hxs u h v hedge)

/-- Multi-step reachability out of a finish-ordered list stays in the list. -/
theorem topo_reach_closed (tasks : List Task) (l : List Nat) (htopo : TopoOk tasks l)
    (u : Nat) (hu : u ∈ l) {w : Nat} (hr : Relation.ReflTransGen (edge tasks) u w) :
    w ∈ l := by
  induction hr with
  | refl => exact hu
  | tail _ hstep ih => exact topo_edge_closed tasks l htopo _ ih _ hstep

/-- From the head of a finish-ordered list, any nonempty walk lands in the
tail. -/
theorem topo_trans_into_tail (tasks : List Task) (x : Nat) (xs : List Nat)
    (htopo : TopoOk tasks (x :: xs)) {w : Nat}
    (htg : Relation.TransGen (edge tasks) x w) : w ∈ xs := by
  obtain ⟨_, hx_edges, hxs⟩ := htopo
  induction htg with
  | single h => exact hx_edges _ h
  | tail _ hstep ih => exact topo_edge_closed tasks xs hxs _ ih _ hstep

/-- No node of a finish-ordered list lies on a cycle. -/
theorem topo_no_cycle (tasks : List Task) :
    ∀ l : List Nat, TopoOk tasks l → ∀ v ∈ l, ¬ Relation.TransGen (edge tasks) v v := by
  intro l
  induction l with
  | nil => intro _ v hv; cases hv
  | cons x xs ih =>
    intro htopo v hv htg
    cases hv with
    | head => exact htopo.1 (topo_trans_into_tail tasks x xs htopo htg)
    | tail _ h => exact ih htopo.2.2 v h htg

/-- Soundness: when the DFS reports a cycle (with sufficient fuel, and with
the pending list hanging off the head of a valid call chain), the dependency
graph has a real cycle. -/
theorem dfs_true_cycle (tasks : List Task) :
    ∀ (fuel : Nat) (ds visited path : List Nat) (a : Nat) (rest2 : List Nat),
      path = a :: rest2 →
      PathChain tasks path →
      (∀ d ∈ ds, edge tasks a d) →
      ds ⊆ all_nodes tasks →
      unseen (all_nodes tasks) visited ≤ fuel →
      (has_cycle_dfs tasks fuel ds visited path).1 = true →
      has_cycle_spec tasks := by
  intro fuel
  induction fuel using Nat.strong_induction_on with
  | _ fuel ihf =>
    intro ds
    induction ds with
    | nil =>
      intro visited path a rest2 hpath hchain hds hsub hfuel htrue
      rw [dfs_nil] at htrue
      cases htrue
    | cons d rest ihds =>
      intro visited path a rest2 hpath hchain hds hsub hfuel htrue
      by_cases hdv : d ∈ visited
      · by_cases hdp : d ∈ path
        · -- back edge: d is on the call chain, and the head has an edge to d
          have hreach : Relation.ReflTransGen (edge tasks) d a := by
            rw [hpath] at hdp hchain
            exact path_chain_reaches_head tasks rest2 a hchain d hdp
          have hedge : edge tasks a d := hds d (List.mem_cons_self d rest)
          exact ⟨d, Relation.TransGen.tail' hreach hedge⟩
        · rw [dfs_cons_skip tasks fuel d rest visited path hdv hdp] at htrue
          exact ihds visited path a rest2 hpath hchain
            (fun x hx => hds x (List.mem_cons_of_mem _ hx))
            (fun x hx => hsub (List.mem_cons_of_mem _ hx)) hfuel htrue
      · have hdu : d ∈ all_nodes tasks := hsub (List.mem_cons_self d rest)
        cases fuel with
        | zero =>
          have hpos := unseen_pos (all_nodes tasks) visited d hdu hdv
          omega
        | succ f =>
          rw [dfs_cons_enter tasks f d rest visited path hdv] at htrue
          cases hrec : has_cycle_dfs tasks f (deps_of tasks d) (d :: visited) (d :: path) with
          | mk b v2 =>
            rw [hrec] at htrue
            have hfuel2 : unseen (all_nodes tasks) (d :: visited) ≤ f := by
              have := unseen_insert_lt (all_nodes tasks) visited d hdu hdv
              omega
            cases b with
            | true =>
              refine ihf f (Nat.lt_succ_self f) (deps_of tasks d) (d :: visited)
                (d :: path) d path rfl ?_ (fun x hx => hx) (deps_of_subset tasks d)
                hfuel2 (by rw [hrec])
              -- the extended chain is valid: the old head has an edge to d
              rw [hpath]
              exact ⟨hds d (List.mem_cons_self d rest), by rw [← hpath]; exact hchain⟩
            | false =>
              have hsub2 : (d :: visited) ⊆ v2 := by
                intro x hx
                have := dfs_visited_mono tasks f (deps_of tasks d) (d :: visited) (d :: path) hx
                rw [hrec] at this
                exact this
              have hfuel3 : unseen (all_nodes tasks) v2 ≤ f + 1 := by
                have h1 := unseen_anti (all_nodes tasks) (d :: visited) v2 hsub2
                omega
              exact ihds v2 path a rest2 hpath hchain
                (fun x hx => hds x (List.mem_cons_of_mem _ hx))
                (fun x hx => hsub (List.mem_cons_of_mem _ hx)) hfuel3 htrue

/-- Completeness: when the DFS finishes a pending list without reporting a
cycle, the finished nodes extend to a finish-ordered list that absorbs the
whole pending list (`visited` always splits as finished nodes plus the call
chain). -/
theorem dfs_false_topo (tasks : List Task) :
    ∀ (fuel : Nat) (ds visited path topo : List Nat),
      (∀ x, x ∈ visited ↔ x ∈ topo ∨ x ∈ path) →
      TopoOk tasks topo →
      (∀ x ∈ path, x ∉ topo) →
      ∀ v2, has_cycle_dfs tasks fuel ds visited path = (false, v2) →
      ∃ topo2, TopoOk tasks topo2 ∧
        (∀ x, x ∈ v2 ↔ x ∈ topo2 ∨ x ∈ path) ∧
        (∀ x ∈ topo, x ∈ topo2) ∧
        (∀ x ∈ path, x ∉ topo2) ∧
        (∀ d ∈ ds, d ∈ topo2) := by
  intro fuel
  induction fuel using Nat.strong_induction_on with
  | _ fuel ihf =>
    intro ds
    induction ds with
    | nil =>
      intro visited path topo hvis htopo hdisj v2 hres
      rw [dfs_nil] at hres
      obtain ⟨-, rfl⟩ := Prod.mk.injEq .. |>.mp hres
      exact ⟨topo, htopo, hvis, fun x hx => hx, hdisj, by simp⟩
    | cons d rest ihds =>
      intro visited path topo hvis htopo hdisj v2 hres
      by_cases hdv : d ∈ visited
      · by_cases hdp : d ∈ path
        · rw [dfs_cons_hit tasks fuel d rest visited path hdv hdp] at hres
          simp at hres
        · rw [dfs_cons_skip tasks fuel d rest visited path hdv hdp] at hres
          obtain ⟨topo2, h1, h2, h3, h4, h5⟩ :=
            ihds visited path topo hvis htopo hdisj v2 hres
          refine ⟨topo2, h1, h2, h3, h4, ?_⟩
          intro d2 hd2
          cases hd2 with
          | head =>
            rcases (hvis d).mp hdv with h | h
            · exact h3 d h
            · exact absurd h hdp
          | tail _ h => exact h5 d2 h
      · cases fuel with
        | zero =>
          rw [dfs_cons_zero tasks d rest visited path hdv] at hres
          simp at hres
        | succ f =>
          rw [dfs_cons_enter tasks f d rest visited path hdv] at hres
          cases hrec : has_cycle_dfs tasks f (deps_of tasks d) (d :: visited) (d :: path) with
          | mk b vmid =>
            rw [hrec] at hres
            cases b with
            | true => simp at hres
            | false =>
              have hdnt : d ∉ topo := fun h => hdv ((hvis d).mpr (Or.inl h))
              have hvis2 : ∀ x, x ∈ d :: visited ↔ x ∈ topo ∨ x ∈ d :: path := by
                intro x
                constructor
                · intro hx
                  cases hx with
                  | head => exact Or.inr (List.mem_cons_self _ _)
                  | tail _ h =>
                    rcases (hvis x).mp h with h2 | h2
                    · exact Or.inl h2
                    · exact Or.inr (List.mem_cons_of_mem _ h2)
                · intro hx
                  rcases hx with h2 | h2
                  · exact List.mem_cons_of_mem _ ((hvis x).mpr (Or.inl h2))
                  · cases h2 with
                    | head => exact List.mem_cons_self _ _
                    | tail _ h3 => exact List.mem_cons_of_mem _ ((hvis x).mpr (Or.inr h3))
              have hdisj2 : ∀ x ∈ d :: path, x ∉ topo := by
                intro x hx
                cases hx with
                | head => exact hdnt
                | tail _ h => exact hdisj x h
              obtain ⟨tmid, htmid, hvmid, hsup, hdmid, hdeps⟩ :=
                ihf f (Nat.lt_succ_self f) (deps_of tasks d) (d :: visited) (d :: path)
                  topo hvis2 htopo hdisj2 vmid hrec
              have hdnt2 : d ∉ tmid := hdmid d (List.mem_cons_self _ _)
              have htopo3 : TopoOk tasks (d :: tmid) :=
                ⟨hdnt2, fun v he => hdeps v he, htmid⟩
              have hvis3 : ∀ x, x ∈ vmid ↔ x ∈ d :: tmid ∨ x ∈ path := by
                intro x
                constructor
                · intro hx
                  rcases (hvmid x).mp hx with h2 | h2
                  · exact Or.inl (List.mem_cons_of_mem _ h2)
                  · cases h2 with
                    | head => exact Or.inl (List.mem_cons_self _ _)
                    | tail _ h3 => exact Or.inr h3
                · intro hx
                  rcases hx with h2 | h2
                  · cases h2 with
                    | head => exact (hvmid d).mpr (Or.inr (List.mem_cons_self _ _))
                    | tail _ h3 => exact (hvmid x).mpr (Or.inl h3)
                  · exact (hvmid x).mpr (Or.inr (List.mem_cons_of_mem _ h2))
              have hdisj3 : ∀ x ∈ path, x ∉ d :: tmid := by
                intro x hx hmem
                cases hmem with
                | head =>
                  exact hdv ((hvis d).mpr (Or.inr hx))
                | tail _ h3 => exact hdmid x (List.mem_cons_of_mem _ hx) h3
              obtain ⟨tfin, htfin, hvfin, hsupfin, hdfin, hrestfin⟩ :=
                ihds vmid path (d :: tmid) hvis3 htopo3 hdisj3 v2 hres
              refine ⟨tfin, htfin, hvfin, ?_, hdfin, ?_⟩
              · intro x hx
                exact hsupfin _ (List.mem_cons_of_mem _ (hsup x hx))
              · intro d2 hd2
                cases hd2 with
                | head => exact hsupfin _ (List.mem_cons_self _ _)
                | tail _ h3 => exact hrestfin d2 h3

theorem loop_nil (tasks : List Task) (fuel : Nat) (visited : List Nat) :
    check_circular_loop tasks fuel [] visited = false := rfl

theorem loop_cons (tasks : List Task) (fuel : Nat) (t : Task) (rest : List Task)
    (visited : List Nat) :
    check_circular_loop tasks fuel (t :: rest) visited =
      (if t.id ∈ visited then check_circular_loop tasks fuel rest visited
       else match has_cycle_dfs tasks fuel (deps_of tasks t.id)
              (t.id :: visited) [t.id] with
            | (true, _) => true
            | (false, visited2) => check_circular_loop tasks fuel rest visited2) := rfl

/-- If the outer loop reports a cycle, the graph has one. -/
theorem loop_true_cycle (tasks : List Task) :
    ∀ (ts : List Task) (visited : List Nat),
      check_circular_loop tasks (all_nodes tasks).length ts visited = true →
      has_cycle_spec tasks := by
  intro ts
  induction ts with
  | nil =>
    intro visited h
    rw [loop_nil] at h
    cases h
  | cons t rest ih =>
    intro visited h
    rw [loop_cons] at h
    by_cases hv : t.id ∈ visited
    · rw [if_pos hv] at h
      exact ih _ h
    · rw [if_neg hv] at h
      cases hrec : has_cycle_dfs tasks (all_nodes tasks).length (deps_of tasks t.id)
          (t.id :: visited) [t.id] with
      | mk b v2 =>
        rw [hrec] at h
        cases b with
        | true =>
          refine dfs_true_cycle tasks (all_nodes tasks).length (deps_of tasks t.id)
            (t.id :: visited) [t.id] t.id [] rfl trivial (fun d hd => hd)
            (deps_of_subset tasks t.id) (unseen_le _ _) ?_
          rw [hrec]
        | false => exact ih v2 h

/-- If the outer loop reports no cycle, every embedded task id sits in a
finish-ordered list. -/
theorem loop_false_topo (tasks : List Task) :
    ∀ (ts : List Task) (visited topo : List Nat),
      (∀ x, x ∈ visited ↔ x ∈ topo) →
      TopoOk tasks topo →
      check_circular_loop tasks (all_nodes tasks).length ts visited = false →
      ∃ topo2, TopoOk tasks topo2 ∧ (∀ x ∈ topo, x ∈ topo2) ∧
        (∀ t ∈ ts, t.id ∈ topo2) := by
  intro ts
  induction ts with
  | nil =>
    intro visited topo hvt htopo _
    exact ⟨topo, htopo, fun x hx => hx, by simp⟩
  | cons t rest ih =>
    intro visited topo hvt htopo h
    rw [loop_cons] at h
    by_cases hv : t.id ∈ visited
    · rw [if_pos hv] at h
      obtain ⟨topo2, h1, h2, h3⟩ := ih visited topo hvt htopo h
      refine ⟨topo2, h1, h2, ?_⟩
      intro t2 ht2
      cases ht2 with
      | head => exact h2 _ ((hvt t.id).mp hv)
      | tail _ h4 => exact h3 t2 h4
    · rw [if_neg hv] at h
      cases hrec : has_cycle_dfs tasks (all_nodes tasks).length (deps_of tasks t.id)
          (t.id :: visited) [t.id] with
      | mk b v2 =>
        rw [hrec] at h
        cases b with
        | true => cases h
        | false =>
          have hidnt : t.id ∉ topo := fun h2 => hv ((hvt t.id).mpr h2)
          have hvis : ∀ x, x ∈ t.id :: visited ↔ x ∈ topo ∨ x ∈ [t.id] := by
            intro x
            constructor
            · intro hx
              cases hx with
              | head => exact Or.inr (List.mem_cons_self _ _)
              | tail _ h2 => exact Or.inl ((hvt x).mp h2)
            · intro hx
              rcases hx with h2 | h2
              · exact List.mem_cons_of_mem _ ((hvt x).mpr h2)
              · cases h2 with
                | head => exact List.mem_cons_self _ _
                | tail _ h3 => cases h3
          have hdisj : ∀ x ∈ [t.id], x ∉ topo := by
            intro x hx
            cases hx with
            | head => exact hidnt
            | tail _ h2 => cases h2
          obtain ⟨tmid, htmid, hvmid, hsup, hdmid, hdeps⟩ :=
            dfs_false_topo tasks (all_nodes tasks).length (deps_of tasks t.id)
              (t.id :: visited) [t.id] topo hvis htopo hdisj v2 hrec
          have hidnt2 : t.id ∉ tmid := hdmid t.id (List.mem_cons_self _ _)
          have htopo3 : TopoOk tasks (t.id :: tmid) :=
            ⟨hidnt2, fun v he => hdeps v he, htmid⟩
          have hvt2 : ∀ x, x ∈ v2 ↔ x ∈ t.id :: tmid := by
            intro x
            constructor
            · intro hx
              rcases (hvmid x).mp hx with h2 | h2
              · exact List.mem_cons_of_mem _ h2
              · cases h2 with
                | head => exact List.mem_cons_self _ _
                | tail _ h3 => cases h3
            · intro hx
              cases hx with
              | head => exact (hvmid t.id).mpr (Or.inr (List.mem_cons_self _ _))
              | tail _ h3 => exact (hvmid x).mpr (Or.inl h3)
          obtain ⟨tfin, htfin, hsupfin, hcover⟩ := ih v2 (t.id :: tmid) hvt2 htopo3 h
          refine ⟨tfin, htfin, ?_, ?_⟩
          · intro x hx
            exact hsupfin _ (List.mem_cons_of_mem _ (hsup x hx))
          · intro t2 ht2
            cases ht2 with
            | head => exact hsupfin _ (List.mem_cons_self _ _)
            | tail _ h3 => exact hcover t2 h3

/-- The first step out of a nonempty walk. -/
theorem trans_gen_first_step {r : Nat → Nat → Prop} {a b : Nat}
    (h : Relation.TransGen r a b) : ∃ c, r a c := by
  induction h with
  | single h => exact ⟨_, h⟩
  | tail _ _ ih => exact ih

/-- The DFS-based check reports a cycle exactly when the dependency graph of
the embedded tasks has one. -/
theorem check_circular_iff (w : Workflow) :
    check_circular_dependencies w = true ↔ has_cycle_spec w.tasks := by
  constructor
  · intro h
    exact loop_true_cycle w.tasks w.tasks [] h
  · intro hc
    by_contra hfalse
    have hf : check_circular_dependencies w = false := by
      cases h : check_circular_dependencies w with
      | true => exact absurd h hfalse
      | false => rfl
    obtain ⟨topo2, htopo2, -, hcover⟩ :=
      loop_false_topo w.tasks w.tasks [] [] (by simp) trivial hf
    obtain ⟨v, htg⟩ := hc
    obtain ⟨u, hu⟩ := trans_gen_first_step htg
    have hv2 : v ∈ topo2 := by
      unfold edge deps_of at hu
      cases hf2 : w.tasks.find? (fun t => t.id == v) with
      | none =>
        rw [hf2] at hu
        cases hu
      | some t =>
        obtain ⟨hmem, hid⟩ := find_task_mem _ _ _ hf2
        rw [← hid]
        exact hcover t hmem
    exact topo_no_cycle w.tasks topo2 htopo2 v hv2 htg

/-- C3: for a workflow with nonempty name and task list (and working
storage), submission succeeds when the dependency graph over the embedded
tasks is acyclic, and fails with `CircularDependency` when it has a cycle. -/
theorem submit_workflow_cycle_detection (st : ServerState) (w : Workflow)
    (hname : w.name.isEmpty = false)
    (htasks : w.tasks.isEmpty = false)
    (hstore : st.storageOk = true) :
    (¬ has_cycle_spec w.tasks → (submit_workflow st w).2 = .ok w.id)
    ∧ (has_cycle_spec w.tasks →
        (submit_workflow st w).2 =
          .error (.CircularDependency "Circular dependency detected in workflow")) := by
  constructor
  · intro hnc
    have hcheck : check_circular_dependencies w = false := by
      cases h : check_circular_dependencies w with
      | true => exact absurd ((check_circular_iff w).mp h) hnc
      | false => rfl
    unfold submit_workflow validate_workflow
    simp only [hname, htasks, hcheck, Bool.false_eq_true, if_false]
    simp [store_workflow, hstore]
  · intro hc
    have hcheck : check_circular_dependencies w = true := (check_circular_iff w).mpr hc
    unfold submit_workflow validate_workflow
    simp only [hname, htasks, hcheck, Bool.false_eq_true, if_false, if_true]

/-- C3 witness: submitting the concrete two-task cyclic workflow fails with
`CircularDependency`. -/
theorem submit_workflow_cycle_detection_witness :
    (submit_workflow empty_state cyc_workflow).2 =
      .error (.CircularDependency "Circular dependency detected in workflow") := by
  have h1 : edge cyc_workflow.tasks 10 11 :=
    show (11 : Nat) ∈ deps_of cyc_workflow.tasks 10 by decide
  have h2 : edge cyc_workflow.tasks 11 10 :=
    show (10 : Nat) ∈ deps_of cyc_workflow.tasks 11 by decide
  exact (submit_workflow_cycle_detection empty_state cyc_workflow rfl rfl rfl).2
    ⟨10, Relation.TransGen.head h1 (Relation.TransGen.single h2)⟩

end TaskQueue
